import Mathlib

/-!
Shallow embedding of the CustoMusic core: the catalog / descriptor store
(`playlist_manager.py`) and the playback engine (`music_player.py`).

Filesystem interaction is made explicit: each playlist directory is modelled by
a `PlaylistFS` record carrying the facts the Python code observes (directory
existence, the descriptor file's contents, the audio-file scan result, per-path
existence, absolute-path resolution).  Operations that write the descriptor
return the updated `PlaylistFS`; operations that do not write return the input
record unchanged.  Python floats are modelled as rationals; timestamps
(`datetime.now().isoformat()`) are inputs, since they are environment reads.
-/

namespace CustoMusic

/-! ### Path helpers, mirroring `pathlib.PurePath.suffix` / `.stem` -/

/-- Split a character list at every occurrence of a separator, keeping empty
segments, as `str.split` does. -/
def splitOnChar (sep : Char) : List Char → List (List Char)
  | [] => [[]]
  | x :: rest =>
    match splitOnChar sep rest with
    | [] => [[x]]
    | h :: t => if x = sep then [] :: h :: t else (x :: h) :: t

/-- Final path component (`Path.name`), as characters. -/
def pathBaseChars (p : String) : List Char :=
  (splitOnChar '/' p.toList).getLastD p.toList

/-- `Path.suffix`: the extension of the final component, dot included; empty
when the name's last dot is not interior (`rfind`-based, as in `pathlib`). -/
def pathSuffix (p : String) : String :=
  let cs := pathBaseChars p
  let afterDot := cs.reverse.takeWhile (fun c => c ≠ '.')
  if afterDot.length = cs.length then ""
  else if 0 < cs.length - 1 - afterDot.length ∧
          cs.length - 1 - afterDot.length < cs.length - 1 then
    String.mk ('.' :: afterDot.reverse)
  else ""

/-- `Path.stem`: the final component with its suffix removed. -/
def pathStem (p : String) : String :=
  let cs := pathBaseChars p
  let afterDot := cs.reverse.takeWhile (fun c => c ≠ '.')
  if afterDot.length = cs.length then String.mk cs
  else if 0 < cs.length - 1 - afterDot.length ∧
          cs.length - 1 - afterDot.length < cs.length - 1 then
    String.mk (cs.take (cs.length - 1 - afterDot.length))
  else String.mk cs

/-- `str.lower()` (the extensions compared with it are ASCII). -/
def toLowerStr (s : String) : String :=
  String.mk (s.toList.map Char.toLower)

/-! ### Catalog data model (`playlist_manager.py`) -/

/-- One entry of the descriptor's `tracks` mapping.  The `order` key is read
with `track_info.get('order', 999)`, so it is optional. -/
structure TrackInfo where
  display_name : String
  order : Option Nat
  added : String
  modified : Option String
deriving DecidableEq, Repr

/-- The persisted JSON descriptor (`playlist.json`).  Descriptors written by
the program always carry a `tracks` mapping; the mapping is kept as an
association list in dict insertion order, which is exactly the order `json`
round-trips and the order Python iterates. -/
structure Descriptor where
  display_name : String
  description : String
  created : String
  modified : Option String
  tracks : List (String × TrackInfo)
deriving DecidableEq, Repr

/-- State of the `playlist.json` file on disk: absent, present but not valid
JSON, or present and valid. -/
inductive DescriptorFile
  | absent
  | invalidJSON
  | valid (d : Descriptor)
deriving DecidableEq, Repr

/-- Observable filesystem state of one playlist directory.
`scan` is the result of `_get_audio_files`: the relative paths of the audio
files under the directory, sorted by lowercased name (so it never contains
duplicates).  `fileExists` answers the `full_path.exists()` queries done by
`get_playlist_tracks`; `absPath` resolves a relative track path to the
absolute-path string used by `export_playlist`. -/
structure PlaylistFS where
  dirExists : Bool
  dfile : DescriptorFile
  scan : List String
  fileExists : String → Bool
  absPath : String → String

/-- Key lookup in a descriptor's `tracks` dict. -/
def lookupKey (l : List (String × TrackInfo)) (k : String) : Option TrackInfo :=
  match l with
  | [] => none
  | p :: rest => if p.1 = k then some p.2 else lookupKey rest k

/-- Python dict assignment `d[k] = v`: overwrite in place when the key is
present, append otherwise. -/
def dictInsert (l : List (String × TrackInfo)) (k : String) (v : TrackInfo) :
    List (String × TrackInfo) :=
  if k ∈ l.map Prod.fst then
    l.map (fun p => if p.1 = k then (k, v) else p)
  else l ++ [(k, v)]

/-- `_load_descriptor` on a file: returns the parsed JSON when the file exists
and parses; any exception (e.g. invalid JSON) is caught, logged, and turned
into `None`.  The file itself is not touched. -/
def load_descriptor_file : DescriptorFile → Option Descriptor
  | .valid d => some d
  | _ => none

/-- `_load_descriptor` with its filesystem effect made explicit: it performs no
write, so the descriptor file is returned unchanged alongside the result. -/
def load_descriptor_file_state (f : DescriptorFile) :
    Option Descriptor × DescriptorFile :=
  (load_descriptor_file f, f)

/-- `_load_descriptor` for a playlist directory. -/
def load_descriptor (fs : PlaylistFS) : Option Descriptor :=
  load_descriptor_file fs.dfile

/-- `get_playlists`: every subdirectory whose descriptor loads, with its
descriptor; directories whose descriptor is absent or unreadable are skipped. -/
def get_playlists (cols : List (String × DescriptorFile)) :
    List (String × Descriptor) :=
  cols.filterMap (fun c => (load_descriptor_file c.2).map (fun d => (c.1, d)))

/-- The track entry `refresh_playlist` builds for a newly discovered file when
the tracks dict currently has `n` entries
(`order = len(descriptor['tracks']) + 1`). -/
def refreshTrackInfo (rp : String) (n : Nat) (now : String) : TrackInfo :=
  { display_name := pathStem rp
    order := some (n + 1)
    added := now
    modified := none }

/-- The add-loop of `refresh_playlist`: walk the scanned files, and for each
one whose path is not among the descriptor's original keys (`existing_tracks`
is computed once, before the loop), insert a fresh entry whose order is the
current dict size plus one. -/
def addNewTracks (existing : List String) (now : String) :
    List (String × TrackInfo) → List String → List (String × TrackInfo)
  | acc, [] => acc
  | acc, rp :: rest =>
    if rp ∈ existing then addNewTracks existing now acc rest
    else addNewTracks existing now
      (dictInsert acc rp (refreshTrackInfo rp acc.length now)) rest

/-- The default descriptor `refresh_playlist` starts from when none loads. -/
def defaultRefreshDescriptor (playlist_name : String) (now : String) : Descriptor :=
  { display_name := playlist_name
    description := "Playlist for " ++ playlist_name
    created := now
    modified := none
    tracks := [] }

/-- The tracks dict `refresh_playlist` leaves behind: add entries for scanned
files missing from the original key set (`existing_tracks`), then delete the
entries whose key is an original key no longer in the scan
(`tracks_to_remove = existing_tracks - current_relative_paths`). -/
def refresh_tracks (d : Descriptor) (scan : List String) (now : String) :
    List (String × TrackInfo) :=
  (addNewTracks (d.tracks.map Prod.fst) now d.tracks scan).filter
    (fun p => decide (p.1 ∈ scan ∨ p.1 ∉ d.tracks.map Prod.fst))

/-- The descriptor `refresh_playlist` computes and writes: the reconciled
tracks dict, with `modified` stamped. -/
def refresh_descriptor (playlist_name : String) (od : Option Descriptor)
    (scan : List String) (now : String) : Descriptor :=
  let d := od.getD (defaultRefreshDescriptor playlist_name now)
  { d with tracks := refresh_tracks d scan now, modified := some now }

/-- Closed form of the entries the add-loop of `refresh_playlist` appends,
`n` being the size of the tracks dict when the loop starts: the `j`-th file
(zero-based) of the scan that is not an original key is appended with
`order = n + j + 1`. -/
def newEntriesFrom (existing : List String) (now : String) :
    Nat → List String → List (String × TrackInfo)
  | _, [] => []
  | n, s :: rest =>
    if s ∈ existing then newEntriesFrom existing now n rest
    else (s, refreshTrackInfo s n now) :: newEntriesFrom existing now (n + 1) rest

/-- `refresh_playlist`: returns `False` without touching anything when the
directory does not exist; otherwise writes the reconciled descriptor
(the write is assumed to succeed) and returns `True`. -/
def refresh_playlist (playlist_name : String) (fs : PlaylistFS) (now : String) :
    Bool × PlaylistFS :=
  if fs.dirExists then
    let d := refresh_descriptor playlist_name (load_descriptor fs) fs.scan now
    (true, { fs with dfile := DescriptorFile.valid d })
  else (false, fs)

/-- The comparison `get_playlist_tracks` sorts by: ascending `order`. -/
def entryLE (a b : Nat × String) : Prop := a.1 ≤ b.1

instance : DecidableRel entryLE :=
  fun a b => inferInstanceAs (Decidable (a.1 ≤ b.1))

instance : IsTotal (Nat × String) entryLE :=
  ⟨fun a b => Nat.le_total a.1 b.1⟩

instance : IsTrans (Nat × String) entryLE :=
  ⟨fun _ _ _ => Nat.le_trans⟩

/-- Strict version of `entryLE`, used to compare sorted entry lists whose
order values are pairwise distinct. -/
def entryLT (a b : Nat × String) : Prop := a.1 < b.1

instance : IsAntisymm (Nat × String) entryLT :=
  ⟨fun _ _ h1 h2 => absurd (Nat.lt_trans h1 h2) (Nat.lt_irrefl _)⟩

/-- The `(order, path)` pairs `get_playlist_tracks` collects: one per
descriptor entry whose file still exists, with `order` read via
`get('order', 999)`. -/
def trackEntries (d : Descriptor) (fex : String → Bool) : List (Nat × String) :=
  d.tracks.filterMap
    (fun p => if fex p.1 then some (p.2.order.getD 999, p.1) else none)

/-- `get_playlist_tracks`: empty when the directory is missing; with a loaded
descriptor, the surviving entries sorted ascending by `order` (Python's sort
is stable, and `List.insertionSort` is the stable sort for this total
preorder); without a descriptor, the raw audio-file scan.  Performs no write,
so the filesystem state is returned unchanged. -/
def get_playlist_tracks (fs : PlaylistFS) : List String × PlaylistFS :=
  if fs.dirExists then
    match load_descriptor fs with
    | some d =>
      (((trackEntries d fs.fileExists).insertionSort entryLE).map Prod.snd, fs)
    | none => (fs.scan, fs)
  else ([], fs)

/-- One assignment `descriptor['tracks'][rp]['order'] = i` of
`reorder_tracks`; when `rp` is not a key this is the identity, matching the
guarding `in` check. -/
def setOrder (tracks : List (String × TrackInfo)) (rp : String) (i : Nat) :
    List (String × TrackInfo) :=
  tracks.map (fun p => if p.1 = rp then (p.1, { p.2 with order := some i }) else p)

/-- The `enumerate(track_order, 1)` loop of `reorder_tracks`. -/
def applyOrders : List (String × TrackInfo) → Nat → List String →
    List (String × TrackInfo)
  | tracks, _, [] => tracks
  | tracks, i, rp :: rest => applyOrders (setOrder tracks rp i) (i + 1) rest

/-- `reorder_tracks`: fails when no descriptor loads; otherwise assigns
`order = index + 1` to each listed path that is a key, stamps `modified`, and
writes the descriptor back. -/
def reorder_tracks (fs : PlaylistFS) (track_order : List String) (now : String) :
    Bool × PlaylistFS :=
  match load_descriptor fs with
  | none => (false, fs)
  | some d =>
    let d' : Descriptor :=
      { d with tracks := applyOrders d.tracks 1 track_order, modified := some now }
    (true, { fs with dfile := DescriptorFile.valid d' })

/-- `get_track_display_name` for a track given by its path relative to the
playlist directory: descriptor entry's `display_name`, falling back to the
filename stem. -/
def get_track_display_name (od : Option Descriptor) (rp : String) : String :=
  match od with
  | some d =>
    match lookupKey d.tracks rp with
    | some ti => ti.display_name
    | none => pathStem rp
  | none => pathStem rp

/-- The body the `m3u` branch of `export_playlist` writes after the header:
one `#EXTINF` line and one absolute-path line per track, in order. -/
def m3uBody (od : Option Descriptor) (ab : String → String) :
    List String → String
  | [] => ""
  | t :: rest =>
    "#EXTINF:-1," ++ get_track_display_name od t ++ "\n" ++ ab t ++ "\n" ++
      m3uBody od ab rest

/-- The per-track body the `pls` branch writes (`enumerate(tracks, 1)`). -/
def plsBody (od : Option Descriptor) (ab : String → String) :
    Nat → List String → String
  | _, [] => ""
  | i, t :: rest =>
    "File" ++ toString i ++ "=" ++ ab t ++ "\n" ++
      "Title" ++ toString i ++ "=" ++ get_track_display_name od t ++ "\n" ++
      "Length" ++ toString i ++ "=-1\n" ++ plsBody od ab (i + 1) rest

/-- `export_playlist` (with the constructor-default `playlists` base
directory): `None` for an unrecognized format or an empty track listing;
otherwise the written file's path together with the exact text written. -/
def export_playlist (playlist_name : String) (fs : PlaylistFS)
    (format : String) : Option (String × String) :=
  if format ≠ "m3u" ∧ format ≠ "pls" then none
  else
    let tracks := (get_playlist_tracks fs).1
    if tracks = [] then none
    else
      let export_path :=
        "playlists/" ++ playlist_name ++ "/" ++ playlist_name ++ "." ++ format
      if format = "m3u" then
        some (export_path,
          "#EXTM3U\n" ++ m3uBody (load_descriptor fs) fs.absPath tracks)
      else
        some (export_path,
          "[playlist]\n" ++ plsBody (load_descriptor fs) fs.absPath 1 tracks ++
            "NumberOfEntries=" ++ toString tracks.length ++ "\n" ++ "Version=2\n")

/-! ### Playback engine data model (`music_player.py`) -/

/-- The mutable fields of `MusicPlayerEngine`.  Floats are modelled as
rationals. -/
structure PlayerState where
  current_track : Option String
  is_loaded_flag : Bool
  is_playing : Bool
  is_paused : Bool
  position : ℚ
  duration : ℚ
  volume : ℚ
  speed : ℚ
deriving DecidableEq, Repr

/-- The state set up by `__init__`. -/
def initial_state : PlayerState :=
  { current_track := none
    is_loaded_flag := false
    is_playing := false
    is_paused := false
    position := 0
    duration := 0
    volume := 7 / 10
    speed := 1 }

/-- What the engine observes about the file handed to `load_track`: whether it
exists, whether the mixer is operational during the call (see `stop` for the
mixer-liveness convention), whether `pygame.mixer.music.load` accepts the
file itself, the duration mutagen reports (when mutagen is available and
succeeds), and the file's byte size (when `stat` succeeds). -/
structure TrackFS where
  onDisk : Bool
  mixerOk : Bool
  backendOk : Bool
  metaDur : Option ℚ
  fileSize : Option Nat

/-- The callback events the engine can raise. -/
inductive PlayerEvent
  | onError (msg : String)
  | onTrackEnd
  | onPositionUpdate (pos dur : ℚ)
deriving DecidableEq, Repr

/-- Result alternatives of `load_track`, one per return path; the Python
function returns `True` exactly for `ok` and distinguishes the failures by the
message passed to `_handle_error`. -/
inductive LoadOutcome
  | ok
  | notFound
  | unsupportedFormat
  | backendError
deriving DecidableEq, Repr

/-- `self.supported_formats`. -/
def supported_formats : List String :=
  [".mp3", ".wav", ".ogg", ".flac", ".aiff", ".wma", ".agg"]

/-- `_get_track_duration`: mutagen's length when available, else the byte-size
estimate at a nominal 128 kbit/s capped at an hour, else 180 seconds. -/
def get_track_duration (tfs : TrackFS) : ℚ :=
  match tfs.metaDur with
  | some d => d
  | none =>
    match tfs.fileSize with
    | some n => min ((n : ℚ) / (128 * 1024 / 8)) 3600
    | none => 180

/-- `stop`: a `pygame.error` from `pygame.mixer.music.stop()` is caught,
handled with `onError`, and returns `False` with the flags and position
untouched (the mutations follow the backend call); otherwise the flags are
cleared and the position reset.

Mixer-liveness convention used throughout: the backend control calls of one
operation invocation share a `mixerOk` flag — when it is `false`, the first
backend call of the invocation raises `pygame.error` (before any state
mutation), as when the mixer is uninitialized; when it is `true`, all of the
invocation's control calls succeed. -/
def stop (st : PlayerState) (mixerOk : Bool) :
    Bool × PlayerState × List PlayerEvent :=
  if mixerOk = false then
    (false, st, [PlayerEvent.onError "Failed to stop"])
  else
    (true, { st with is_playing := false, is_paused := false, position := 0 }, [])

/-- `load_track`: validation failures return early (no state change, no
backend call) and raise `onError`; then the current playback is stopped
(return value ignored, its possible `onError` event still fires); then the
backend load runs — it raises when the mixer is down or when it rejects the
file, which is caught by the outer handler, leaving the post-stop state; on
success the track, loaded flag, position and duration are installed.  Each
failure's event carries the message prefix the code passes to
`_handle_error`. -/
def load_track (st : PlayerState) (track_path : String) (tfs : TrackFS) :
    LoadOutcome × PlayerState × List PlayerEvent :=
  if tfs.onDisk = false then
    (LoadOutcome.notFound, st,
      [PlayerEvent.onError ("File not found: " ++ track_path)])
  else if toLowerStr (pathSuffix track_path) ∉ supported_formats then
    (LoadOutcome.unsupportedFormat, st,
      [PlayerEvent.onError ("Unsupported format: " ++ pathSuffix track_path)])
  else
    let r := stop st tfs.mixerOk
    let st1 := r.2.1
    if tfs.mixerOk = false ∨ tfs.backendOk = false then
      (LoadOutcome.backendError, st1,
        r.2.2 ++ [PlayerEvent.onError "Failed to load track"])
    else
      (LoadOutcome.ok,
        { st1 with current_track := some track_path
                   is_loaded_flag := true
                   position := 0
                   duration := get_track_duration tfs }, r.2.2)

/-- `play`: silently returns `False` when nothing is loaded (no backend call
is made before that check); a `pygame.error` from the backend unpause/play
call is caught before any state mutation, handled with `onError`, and returns
`False`; otherwise resumes from pause or (re)starts from the tracked
position, setting the playing flag (the trailing `set_volume` call succeeds
under the mixer-liveness convention). -/
def play (st : PlayerState) (mixerOk : Bool) :
    Bool × PlayerState × List PlayerEvent :=
  if st.is_loaded_flag = false then (false, st, [])
  else if mixerOk = false then
    (false, st, [PlayerEvent.onError "Failed to start playback"])
  else
    let st1 := if st.is_paused then { st with is_paused := false } else st
    (true, { st1 with is_playing := true }, [])

/-- `pause`: only acts when playing and not yet paused — otherwise returns
`False` without a state change or an event; a `pygame.error` from the backend
pause call is caught before the flag mutation, handled with `onError`, and
returns `False`. -/
def pause (st : PlayerState) (mixerOk : Bool) :
    Bool × PlayerState × List PlayerEvent :=
  if st.is_playing = true ∧ st.is_paused = false then
    if mixerOk = false then
      (false, st, [PlayerEvent.onError "Failed to pause"])
    else (true, { st with is_paused := true }, [])
  else (false, st, [])

/-- `set_position`: fails silently when nothing is loaded; seeking to zero
reads `was_playing`, then stops, then restarts when playback was active, and
returns `True` regardless of the inner calls' results — those calls catch
their own backend errors and surface them only as `onError` events, so the
function's own `except` branch is unreachable (the remaining statements are
arithmetic and assignments); any other target only updates the bookkeeping
position, clamped into `[0, duration]`. -/
def set_position (st : PlayerState) (pos : ℚ) (mixerOk : Bool) :
    Bool × PlayerState × List PlayerEvent :=
  if st.is_loaded_flag = false then (false, st, [])
  else if pos = 0 then
    let was_playing := st.is_playing
    let r1 := stop st mixerOk
    let st1 := r1.2.1
    if was_playing then
      let r2 := play st1 mixerOk
      (true, r2.2.1, r1.2.2 ++ r2.2.2)
    else (true, st1, r1.2.2)
  else (true, { st with position := max 0 (min st.duration pos) }, [])

/-- One iteration of the `position_tracker` loop body, given whether the
backend still reports itself busy.  Ticks do nothing unless playing and not
paused; an ended track clears the flags and fires `on_track_end`; otherwise
the position advances by one second, clamped at the duration.  In both active
branches `on_position_update` fires with the (possibly updated) position. -/
def tracker_tick (st : PlayerState) (busy : Bool) :
    PlayerState × List PlayerEvent :=
  if st.is_playing = true ∧ st.is_paused = false then
    if busy = false then
      ({ st with is_playing := false, is_paused := false },
        [PlayerEvent.onTrackEnd, PlayerEvent.onPositionUpdate st.position st.duration])
    else
      let p0 := st.position + 1
      let p := if st.duration ≤ p0 then st.duration else p0
      ({ st with position := p }, [PlayerEvent.onPositionUpdate p st.duration])
  else (st, [])

/-- The operations a controller (or the tracker) can apply to a session after
loading, as quantified over by the position invariant; each control operation
carries the mixer-liveness flag of its invocation, so backend-failure paths
are covered too. -/
inductive SessionOp
  | opPlay (mixerOk : Bool)
  | opPause (mixerOk : Bool)
  | opSeekZero (mixerOk : Bool)
  | opStop (mixerOk : Bool)
  | opTick (busy : Bool)
deriving DecidableEq, Repr

/-- Apply one session operation, keeping only the state. -/
def session_step (st : PlayerState) : SessionOp → PlayerState
  | SessionOp.opPlay m => (play st m).2.1
  | SessionOp.opPause m => (pause st m).2.1
  | SessionOp.opSeekZero m => (set_position st 0 m).2.1
  | SessionOp.opStop m => (stop st m).2.1
  | SessionOp.opTick b => (tracker_tick st b).1

/-- Apply a sequence of session operations. -/
def session_run (st : PlayerState) (ops : List SessionOp) : PlayerState :=
  ops.foldl session_step st

/-- The session position invariant: `0 ≤ position ≤ duration`. -/
def posInvariant (st : PlayerState) : Prop :=
  0 ≤ st.position ∧ st.position ≤ st.duration

/-! ### Concrete instances used by witnesses and counterexamples -/

/-- A track entry with a given order, as the program writes them. -/
def sampleTrack (nm : String) (o : Nat) : TrackInfo :=
  { display_name := nm, order := some o, added := "t0", modified := none }

/-- A descriptor whose two entries carry orders `2` and `3` (reachable, e.g.
after a refresh removed the order-`1` entry). -/
def sampleDescriptor : Descriptor :=
  { display_name := "p"
    description := ""
    created := "t0"
    modified := none
    tracks := [("b.mp3", sampleTrack "b" 2), ("c.mp3", sampleTrack "c" 3)] }

/-- The directory backing `sampleDescriptor`, with both files present. -/
def sampleFS : PlaylistFS :=
  { dirExists := true
    dfile := DescriptorFile.valid sampleDescriptor
    scan := ["b.mp3", "c.mp3"]
    fileExists := fun _ => true
    absPath := fun s => "/abs/" ++ s }

/-- The same directory after `d.mp3` appeared on disk. -/
def sampleFSGrown : PlaylistFS :=
  { sampleFS with scan := ["b.mp3", "c.mp3", "d.mp3"] }

/-- The spec's `Rock` scenario: `a.mp3` at order 1, `b.mp3` at order 2. -/
def rockDescriptor : Descriptor :=
  { display_name := "Rock"
    description := ""
    created := "t0"
    modified := none
    tracks := [("a.mp3", sampleTrack "a" 1), ("b.mp3", sampleTrack "b" 2)] }

/-- The directory backing `rockDescriptor`. -/
def rockFS : PlaylistFS :=
  { dirExists := true
    dfile := DescriptorFile.valid rockDescriptor
    scan := ["a.mp3", "b.mp3"]
    fileExists := fun _ => true
    absPath := fun s => "/abs/" ++ s }

/-- A loadable track file (mixer up, file accepted) whose duration estimate
comes from the final 180-second fallback. -/
def sampleTrackFS : TrackFS :=
  { onDisk := true, mixerOk := true, backendOk := true, metaDur := none,
    fileSize := none }

/-- A session that is loaded and playing, used to exercise the noisy
backend-failure branches of the control operations. -/
def playingState : PlayerState :=
  { initial_state with is_loaded_flag := true, is_playing := true }

/-- A track file that does not exist on disk. -/
def missingTrackFS : TrackFS :=
  { onDisk := false, mixerOk := true, backendOk := true, metaDur := none,
    fileSize := none }

/-! ### Playback engine theorems -/

/-- Helper: a successful `load_track` fully determines result, state, events
(success requires the mixer up, so the internal stop ran and succeeded). -/
theorem load_track_ok_state (st : PlayerState) (track_path : String)
    (tfs : TrackFS) (h : (load_track st track_path tfs).1 = LoadOutcome.ok) :
    load_track st track_path tfs =
      (LoadOutcome.ok,
        { st with current_track := some track_path
                  is_loaded_flag := true
                  is_playing := false
                  is_paused := false
                  position := 0
                  duration := get_track_duration tfs }, []) := by
  by_cases h1 : tfs.onDisk = false
  · simp [load_track, h1] at h
  · by_cases h2 : toLowerStr (pathSuffix track_path) ∉ supported_formats
    · simp [load_track, h1, h2] at h
    · by_cases h3 : tfs.mixerOk = false ∨ tfs.backendOk = false
      · simp [load_track, h1, h2, h3] at h
      · have hm : tfs.mixerOk = true := by
          cases hmm : tfs.mixerOk
          · exact absurd (Or.inl hmm) h3
          · rfl
        have hb : tfs.backendOk = true := by
          cases hbb : tfs.backendOk
          · exact absurd (Or.inr hbb) h3
          · rfl
        simp [load_track, h1, h2, h3, stop, hm, hb]

/-- Helper: the duration estimate is nonnegative whenever the metadata value
(if any) is. -/
theorem get_track_duration_nonneg (tfs : TrackFS)
    (h : ∀ q, tfs.metaDur = some q → 0 ≤ q) : 0 ≤ get_track_duration tfs := by
  unfold get_track_duration
  cases hm : tfs.metaDur with
  | some q => exact h q hm
  | none =>
    cases tfs.fileSize with
    | some n =>
      refine le_min ?_ (by norm_num)
      positivity
    | none => norm_num

/-- C6: `load_track` fails with the not-found outcome on a missing file and
with the unsupported-format outcome when the lowercased extension is not
supported, in both cases leaving the whole player state unchanged; a `.txt`
file in particular fails with unsupported-format and leaves the state (hence
an idle state, and position, duration, current track) unchanged. -/
theorem load_failure_cases (st : PlayerState) (track_path : String)
    (tfs : TrackFS) :
    (tfs.onDisk = false →
      load_track st track_path tfs = (LoadOutcome.notFound, st,
        [PlayerEvent.onError ("File not found: " ++ track_path)]))
  ∧ (tfs.onDisk = true → toLowerStr (pathSuffix track_path) ∉ supported_formats →
      load_track st track_path tfs = (LoadOutcome.unsupportedFormat, st,
        [PlayerEvent.onError ("Unsupported format: " ++ pathSuffix track_path)]))
  ∧ (tfs.onDisk = true → pathSuffix track_path = ".txt" →
      (load_track st track_path tfs).1 = LoadOutcome.unsupportedFormat ∧
        (load_track st track_path tfs).2.1 = st) := by
  refine ⟨fun h1 => by simp [load_track, h1], fun h1 h2 => ?_, fun h1 h2 => ?_⟩
  · simp [load_track, h1, h2]
  · have h2' : toLowerStr (pathSuffix track_path) ∉ supported_formats := by
      rw [h2]; decide
    simp [load_track, h1, h2']

/-- C6 witness: loading `notes.txt` from the idle initial state. -/
theorem load_failure_cases_witness :
    (sampleTrackFS.onDisk = false →
      load_track initial_state "notes.txt" sampleTrackFS =
        (LoadOutcome.notFound, initial_state,
          [PlayerEvent.onError ("File not found: " ++ "notes.txt")]))
  ∧ (sampleTrackFS.onDisk = true →
      toLowerStr (pathSuffix "notes.txt") ∉ supported_formats →
      load_track initial_state "notes.txt" sampleTrackFS =
        (LoadOutcome.unsupportedFormat, initial_state,
          [PlayerEvent.onError ("Unsupported format: " ++ pathSuffix "notes.txt")]))
  ∧ (sampleTrackFS.onDisk = true → pathSuffix "notes.txt" = ".txt" →
      (load_track initial_state "notes.txt" sampleTrackFS).1 =
          LoadOutcome.unsupportedFormat ∧
        (load_track initial_state "notes.txt" sampleTrackFS).2.1 =
          initial_state) :=
  load_failure_cases initial_state "notes.txt" sampleTrackFS

/-- C7 counterexample: `play` with no track loaded (and a healthy mixer)
returns `False` but emits no event at all — in particular no `onError` —,
refuting the claim that every failing operation raises `onError` through the
error callback. -/
theorem play_unloaded_fails_silently :
    play initial_state true = (false, initial_state, []) := rfl

/-- C7 as amended: every engine operation returns an explicit result value
(never an exception).  Backend failures do raise `onError`: the three
`load_track` failure cases, and the caught `pygame.error` of `play`, `pause`
and `stop`, each return `False` together with the matching `onError` event
(`stop` leaving flags and position untouched on that path).  But the
state-precondition failures of `play` (nothing loaded), `pause` (not
playing), and `set_position` (nothing loaded) return `False` silently, with
no event and no state change; and `set_position 0` returns `True` even when
its inner stop/play backend calls fail, surfacing those only as `onError`
events. -/
theorem failing_ops_events (st : PlayerState) (track_path : String)
    (tfs : TrackFS) (pos : ℚ) (mixerOk : Bool) :
    (st.is_loaded_flag = false → play st mixerOk = (false, st, []))
  ∧ (st.is_loaded_flag = true → play st false =
      (false, st, [PlayerEvent.onError "Failed to start playback"]))
  ∧ (¬(st.is_playing = true ∧ st.is_paused = false) →
      pause st mixerOk = (false, st, []))
  ∧ (st.is_playing = true ∧ st.is_paused = false →
      pause st false = (false, st, [PlayerEvent.onError "Failed to pause"]))
  ∧ stop st false = (false, st, [PlayerEvent.onError "Failed to stop"])
  ∧ (stop st true).1 = true
  ∧ (st.is_loaded_flag = false →
      set_position st pos mixerOk = (false, st, []))
  ∧ (st.is_loaded_flag = true → (set_position st 0 mixerOk).1 = true)
  ∧ (tfs.onDisk = false →
      (load_track st track_path tfs).1 = LoadOutcome.notFound ∧
      (load_track st track_path tfs).2.2 =
        [PlayerEvent.onError ("File not found: " ++ track_path)])
  ∧ (tfs.onDisk = true → toLowerStr (pathSuffix track_path) ∉ supported_formats →
      (load_track st track_path tfs).1 = LoadOutcome.unsupportedFormat ∧
      (load_track st track_path tfs).2.2 =
        [PlayerEvent.onError ("Unsupported format: " ++ pathSuffix track_path)])
  ∧ (tfs.onDisk = true → toLowerStr (pathSuffix track_path) ∈ supported_formats →
      tfs.mixerOk = true → tfs.backendOk = false →
      (load_track st track_path tfs).1 = LoadOutcome.backendError ∧
      (load_track st track_path tfs).2.2 =
        [PlayerEvent.onError "Failed to load track"])
  ∧ (tfs.onDisk = true → toLowerStr (pathSuffix track_path) ∈ supported_formats →
      tfs.mixerOk = false →
      (load_track st track_path tfs).1 = LoadOutcome.backendError ∧
      (load_track st track_path tfs).2.2 =
        [PlayerEvent.onError "Failed to stop",
          PlayerEvent.onError "Failed to load track"]) := by
  refine ⟨fun h => by simp [play, h], fun h => by simp [play, h],
    fun h => by simp [pause, h], fun h => by simp [pause, h],
    by simp [stop], rfl,
    fun h => by simp [set_position, h],
    fun h => ?_,
    fun h => by simp [load_track, h],
    fun h1 h2 => by simp [load_track, h1, h2],
    fun h1 h2 h3 h4 => by simp [load_track, h1, h2, h3, h4, stop],
    fun h1 h2 h3 => by simp [load_track, h1, h2, h3, stop]⟩
  by_cases hp : st.is_playing = true <;>
    by_cases hm : mixerOk = true <;>
      simp [set_position, play, stop, h, hp, hm]

/-- C7 witness: a loaded, playing session with the mixer down exercises the
noisy `play`/`pause`/`stop` failures and the seek-to-zero success-with-events
path; the missing-file track exercises the noisy `load_track` failure. -/
theorem failing_ops_events_witness :
    (playingState.is_loaded_flag = false →
      play playingState false = (false, playingState, []))
  ∧ (playingState.is_loaded_flag = true → play playingState false =
      (false, playingState, [PlayerEvent.onError "Failed to start playback"]))
  ∧ (¬(playingState.is_playing = true ∧ playingState.is_paused = false) →
      pause playingState false = (false, playingState, []))
  ∧ (playingState.is_playing = true ∧ playingState.is_paused = false →
      pause playingState false =
        (false, playingState, [PlayerEvent.onError "Failed to pause"]))
  ∧ stop playingState false =
      (false, playingState, [PlayerEvent.onError "Failed to stop"])
  ∧ (stop playingState true).1 = true
  ∧ (playingState.is_loaded_flag = false →
      set_position playingState 0 false = (false, playingState, []))
  ∧ (playingState.is_loaded_flag = true →
      (set_position playingState 0 false).1 = true)
  ∧ (missingTrackFS.onDisk = false →
      (load_track playingState "a.mp3" missingTrackFS).1 =
          LoadOutcome.notFound ∧
        (load_track playingState "a.mp3" missingTrackFS).2.2 =
          [PlayerEvent.onError ("File not found: " ++ "a.mp3")])
  ∧ (missingTrackFS.onDisk = true →
      toLowerStr (pathSuffix "a.mp3") ∉ supported_formats →
      (load_track playingState "a.mp3" missingTrackFS).1 =
          LoadOutcome.unsupportedFormat ∧
        (load_track playingState "a.mp3" missingTrackFS).2.2 =
          [PlayerEvent.onError ("Unsupported format: " ++ pathSuffix "a.mp3")])
  ∧ (missingTrackFS.onDisk = true →
      toLowerStr (pathSuffix "a.mp3") ∈ supported_formats →
      missingTrackFS.mixerOk = true → missingTrackFS.backendOk = false →
      (load_track playingState "a.mp3" missingTrackFS).1 =
          LoadOutcome.backendError ∧
        (load_track playingState "a.mp3" missingTrackFS).2.2 =
          [PlayerEvent.onError "Failed to load track"])
  ∧ (missingTrackFS.onDisk = true →
      toLowerStr (pathSuffix "a.mp3") ∈ supported_formats →
      missingTrackFS.mixerOk = false →
      (load_track playingState "a.mp3" missingTrackFS).1 =
          LoadOutcome.backendError ∧
        (load_track playingState "a.mp3" missingTrackFS).2.2 =
          [PlayerEvent.onError "Failed to stop",
            PlayerEvent.onError "Failed to load track"]) :=
  failing_ops_events playingState "a.mp3" missingTrackFS 0 false

/-- Helper: each session operation preserves the position invariant. -/
theorem posInvariant_step (st : PlayerState) (op : SessionOp)
    (h : posInvariant st) : posInvariant (session_step st op) := by
  obtain ⟨h0, h1⟩ := h
  have hd : (0 : ℚ) ≤ st.duration := le_trans h0 h1
  obtain ⟨ct, lf, ip, ipa, pos, dur, vol, sp⟩ := st
  have h0' : (0 : ℚ) ≤ pos := h0
  have h1' : pos ≤ dur := h1
  have hd' : (0 : ℚ) ≤ dur := hd
  cases op with
  | opPlay m => cases lf <;> cases m <;> cases ipa <;> exact ⟨h0', h1'⟩
  | opPause m => cases ip <;> cases ipa <;> cases m <;> exact ⟨h0', h1'⟩
  | opSeekZero m =>
    cases lf
    · exact ⟨h0', h1'⟩
    · cases m
      · cases ip <;> cases ipa <;> exact ⟨h0', h1'⟩
      · cases ip <;> cases ipa <;> exact ⟨le_refl 0, hd'⟩
  | opStop m =>
    cases m
    · exact ⟨h0', h1'⟩
    · exact ⟨le_refl 0, hd'⟩
  | opTick b =>
    cases ip
    · exact ⟨h0', h1'⟩
    · cases ipa
      · cases b
        · exact ⟨h0', h1'⟩
        · by_cases hcl : dur ≤ pos + 1
          · simpa [session_step, tracker_tick, hcl] using ⟨hd', le_refl dur⟩
          · simpa [session_step, tracker_tick, hcl] using
              ⟨add_nonneg h0' zero_le_one, le_of_lt (lt_of_not_le hcl)⟩
      · exact ⟨h0', h1'⟩

/-- Helper: the invariant is preserved by any operation sequence. -/
theorem posInvariant_run (st : PlayerState) (ops : List SessionOp)
    (h : posInvariant st) : posInvariant (session_run st ops) := by
  induction ops generalizing st with
  | nil => exact h
  | cons op rest ih => exact ih _ (posInvariant_step st op h)

/-- C8: after any successful load (whose metadata duration, if one was read,
is nonnegative), every sequence of `play`/`pause`/`seek(0)`/`stop` calls and
tracker ticks keeps `0 ≤ position ≤ duration`: `seek` clamps into
`[0, duration]` and the tracker's one-second advance is clamped at the
duration. -/
theorem position_invariant_after_load (st0 st1 : PlayerState)
    (track_path : String) (tfs : TrackFS) (evs : List PlayerEvent)
    (ops : List SessionOp)
    (hload : load_track st0 track_path tfs = (LoadOutcome.ok, st1, evs))
    (hdur : ∀ q, tfs.metaDur = some q → 0 ≤ q) :
    posInvariant (session_run st1 ops) := by
  have hok : (load_track st0 track_path tfs).1 = LoadOutcome.ok := by
    rw [hload]
  have hch := load_track_ok_state st0 track_path tfs hok
  rw [hload] at hch
  have hst1 := congrArg (fun r => r.2.1) hch
  simp only at hst1
  refine posInvariant_run _ _ ?_
  rw [hst1]
  exact ⟨le_refl 0, get_track_duration_nonneg tfs hdur⟩

/-- C8 witness: load `a.mp3` (180-second fallback duration) into the idle
state, then play, seek to zero, and stop. -/
theorem position_invariant_after_load_witness :
    load_track initial_state "a.mp3" sampleTrackFS =
      (LoadOutcome.ok,
        { initial_state with current_track := some "a.mp3"
                             is_loaded_flag := true
                             position := 0
                             duration := 180 }, [])
  ∧ posInvariant (session_run
      { initial_state with current_track := some "a.mp3"
                           is_loaded_flag := true
                           position := 0
                           duration := 180 }
      [SessionOp.opPlay true, SessionOp.opSeekZero true,
        SessionOp.opStop false, SessionOp.opStop true]) :=
  ⟨rfl, position_invariant_after_load initial_state _ "a.mp3" sampleTrackFS []
    [SessionOp.opPlay true, SessionOp.opSeekZero true,
      SessionOp.opStop false, SessionOp.opStop true] rfl
    (fun _ hq => nomatch hq)⟩

/-- C10: a successful `load_track` leaves `volume` and `speed` untouched,
resets `position` to 0, installs the new track, loaded flag and duration, and
clears the playing/paused flags through its internal `stop`. -/
theorem load_preserves_volume_speed (st : PlayerState) (track_path : String)
    (tfs : TrackFS) (h : (load_track st track_path tfs).1 = LoadOutcome.ok) :
    (load_track st track_path tfs).2.1 =
      { st with current_track := some track_path
                is_loaded_flag := true
                is_playing := false
                is_paused := false
                position := 0
                duration := get_track_duration tfs }
  ∧ (load_track st track_path tfs).2.1.volume = st.volume
  ∧ (load_track st track_path tfs).2.1.speed = st.speed := by
  have hch := load_track_ok_state st track_path tfs h
  refine ⟨by rw [hch], by rw [hch], by rw [hch]⟩

/-- C10 witness: loading `a.mp3` into the initial state. -/
theorem load_preserves_volume_speed_witness :
    (load_track initial_state "a.mp3" sampleTrackFS).1 = LoadOutcome.ok
  ∧ ((load_track initial_state "a.mp3" sampleTrackFS).2.1 =
      { initial_state with current_track := some "a.mp3"
                           is_loaded_flag := true
                           is_playing := false
                           is_paused := false
                           position := 0
                           duration := get_track_duration sampleTrackFS }
    ∧ (load_track initial_state "a.mp3" sampleTrackFS).2.1.volume =
        initial_state.volume
    ∧ (load_track initial_state "a.mp3" sampleTrackFS).2.1.speed =
        initial_state.speed) :=
  ⟨rfl, load_preserves_volume_speed initial_state "a.mp3" sampleTrackFS rfl⟩

/-! ### Catalog helper lemmas -/

/-- A key is in a tracks dict's key list iff some entry carries it. -/
theorem mem_keys_iff (l : List (String × TrackInfo)) (k : String) :
    k ∈ l.map Prod.fst ↔ ∃ v, (k, v) ∈ l := by
  rw [List.mem_map]
  constructor
  · rintro ⟨⟨a, b⟩, hab, rfl⟩
    exact ⟨b, hab⟩
  · rintro ⟨v, hv⟩
    exact ⟨(k, v), hv, rfl⟩

/-- `dictInsert` for an absent key is an append. -/
theorem dictInsert_of_not_mem (l : List (String × TrackInfo)) (k : String)
    (v : TrackInfo) (h : k ∉ l.map Prod.fst) :
    dictInsert l k v = l ++ [(k, v)] := by
  simp [dictInsert, h]

/-- The keys after a `dictInsert` are the old keys plus the inserted one. -/
theorem dictInsert_keys_mem (l : List (String × TrackInfo)) (k a : String)
    (v : TrackInfo) :
    a ∈ (dictInsert l k v).map Prod.fst ↔ a ∈ l.map Prod.fst ∨ a = k := by
  unfold dictInsert
  split
  · rename_i hk
    rw [List.map_map]
    have hcong : l.map (Prod.fst ∘ fun p => if p.1 = k then (k, v) else p) =
        l.map Prod.fst := by
      apply List.map_congr_left
      intro p _
      by_cases hp : p.1 = k
      · simp [hp]
      · simp [hp]
    rw [hcong]
    constructor
    · exact Or.inl
    · rintro (h | rfl)
      · exact h
      · exact hk
  · simp

/-- Keys reachable from the add-loop: an original key, or a scanned path that
was not an original key. -/
theorem addNewTracks_keys_mem (existing : List String) (now : String) :
    ∀ (scan : List String) (acc : List (String × TrackInfo)) (k : String),
    (k ∈ (addNewTracks existing now acc scan).map Prod.fst ↔
      k ∈ acc.map Prod.fst ∨ (k ∈ scan ∧ k ∉ existing)) := by
  intro scan
  induction scan with
  | nil =>
    intro acc k
    simp [addNewTracks]
  | cons rp rest ih =>
    intro acc k
    simp only [addNewTracks]
    by_cases hrp : rp ∈ existing
    · rw [if_pos hrp, ih]
      constructor
      · rintro (h | ⟨ha, hb⟩)
        · exact Or.inl h
        · exact Or.inr ⟨List.mem_cons_of_mem _ ha, hb⟩
      · rintro (h | ⟨ha, hb⟩)
        · exact Or.inl h
        · rcases List.mem_cons.mp ha with rfl | ha'
          · exact absurd hrp hb
          · exact Or.inr ⟨ha', hb⟩
    · rw [if_neg hrp, ih, dictInsert_keys_mem]
      constructor
      · rintro ((h | rfl) | ⟨ha, hb⟩)
        · exact Or.inl h
        · exact Or.inr ⟨List.mem_cons_self _ _, hrp⟩
        · exact Or.inr ⟨List.mem_cons_of_mem _ ha, hb⟩
      · rintro (h | ⟨ha, hb⟩)
        · exact Or.inl (Or.inl h)
        · rcases List.mem_cons.mp ha with rfl | ha'
          · exact Or.inl (Or.inr rfl)
          · exact Or.inr ⟨ha', hb⟩

/-- When every scanned path is already a key, the add-loop adds nothing. -/
theorem addNewTracks_no_new (existing : List String) (now : String) :
    ∀ (scan : List String) (acc : List (String × TrackInfo)),
    (∀ s ∈ scan, s ∈ existing) → addNewTracks existing now acc scan = acc := by
  intro scan
  induction scan with
  | nil => intro acc _; rfl
  | cons rp rest ih =>
    intro acc h
    simp only [addNewTracks]
    rw [if_pos (h rp (List.mem_cons_self _ _))]
    exact ih acc fun s hs => h s (List.mem_cons_of_mem _ hs)

/-- With a duplicate-free scan disjoint (outside `existing`) from the
accumulator's keys, the add-loop is exactly an append of `newEntriesFrom`. -/
theorem addNewTracks_eq_append (existing : List String) (now : String) :
    ∀ (scan : List String) (acc : List (String × TrackInfo)),
    scan.Nodup → (∀ s ∈ scan, s ∉ existing → s ∉ acc.map Prod.fst) →
    addNewTracks existing now acc scan =
      acc ++ newEntriesFrom existing now acc.length scan := by
  intro scan
  induction scan with
  | nil =>
    intro acc _ _
    simp [addNewTracks, newEntriesFrom]
  | cons rp rest ih =>
    intro acc hnd hdisj
    have hnd' := List.nodup_cons.mp hnd
    simp only [addNewTracks, newEntriesFrom]
    by_cases hrp : rp ∈ existing
    · rw [if_pos hrp, if_pos hrp,
        ih acc hnd'.2 fun s hs => hdisj s (List.mem_cons_of_mem _ hs)]
    · rw [if_neg hrp, if_neg hrp,
        dictInsert_of_not_mem _ _ _ (hdisj rp (List.mem_cons_self _ _) hrp),
        ih (acc ++ [(rp, refreshTrackInfo rp acc.length now)]) hnd'.2 ?_]
      · simp
      · intro s hs hsex
        have hne : s ≠ rp := fun heq => hnd'.1 (heq ▸ hs)
        simp only [List.map_append, List.mem_append]
        rintro (h | h)
        · exact hdisj s (List.mem_cons_of_mem _ hs) hsex h
        · simp at h
          exact hne h

/-- Every entry produced by `newEntriesFrom` has a scanned, non-original key. -/
theorem newEntriesFrom_mem (existing : List String) (now : String) :
    ∀ (l : List String) (n : Nat) (e : String × TrackInfo),
    e ∈ newEntriesFrom existing now n l → e.1 ∈ l ∧ e.1 ∉ existing := by
  intro l
  induction l with
  | nil =>
    intro n e he
    simp [newEntriesFrom] at he
  | cons s rest ih =>
    intro n e he
    simp only [newEntriesFrom] at he
    by_cases hs : s ∈ existing
    · rw [if_pos hs] at he
      obtain ⟨h1, h2⟩ := ih n e he
      exact ⟨List.mem_cons_of_mem _ h1, h2⟩
    · rw [if_neg hs] at he
      rcases List.mem_cons.mp he with rfl | he'
      · exact ⟨List.mem_cons_self _ _, hs⟩
      · obtain ⟨h1, h2⟩ := ih (n + 1) e he'
        exact ⟨List.mem_cons_of_mem _ h1, h2⟩

/-- The keys left after a refresh are exactly the scanned paths. -/
theorem refresh_tracks_keys (d : Descriptor) (scan : List String) (now : String)
    (k : String) :
    k ∈ (refresh_tracks d scan now).map Prod.fst ↔ k ∈ scan := by
  unfold refresh_tracks
  constructor
  · intro hk
    obtain ⟨v, hv⟩ := (mem_keys_iff _ _).mp hk
    obtain ⟨hmem, hkeep⟩ := List.mem_filter.mp hv
    have hkeys : k ∈ (addNewTracks (d.tracks.map Prod.fst) now d.tracks scan).map
        Prod.fst := (mem_keys_iff _ _).mpr ⟨v, hmem⟩
    rw [addNewTracks_keys_mem] at hkeys
    have hkeep' : k ∈ scan ∨ k ∉ d.tracks.map Prod.fst := by
      simpa using hkeep
    rcases hkeys with h1 | ⟨h2, _⟩
    · rcases hkeep' with h | h
      · exact h
      · exact absurd h1 h
    · exact h2
  · intro hk
    have hkeys : k ∈ (addNewTracks (d.tracks.map Prod.fst) now d.tracks scan).map
        Prod.fst := by
      rw [addNewTracks_keys_mem]
      by_cases he : k ∈ d.tracks.map Prod.fst
      · exact Or.inl he
      · exact Or.inr ⟨hk, he⟩
    obtain ⟨v, hv⟩ := (mem_keys_iff _ _).mp hkeys
    refine (mem_keys_iff _ _).mpr ⟨v, List.mem_filter.mpr ⟨hv, ?_⟩⟩
    simpa using Or.inl hk

/-- When the scan and the key set coincide, a refresh leaves the tracks dict
untouched. -/
theorem refresh_tracks_fixed (d : Descriptor) (scan : List String) (now : String)
    (h1 : ∀ s ∈ scan, s ∈ d.tracks.map Prod.fst)
    (h2 : ∀ k ∈ d.tracks.map Prod.fst, k ∈ scan) :
    refresh_tracks d scan now = d.tracks := by
  unfold refresh_tracks
  rw [addNewTracks_no_new _ _ _ _ h1]
  rw [List.filter_eq_self]
  intro p hp
  have : p.1 ∈ scan := h2 p.1 ((mem_keys_iff _ _).mpr ⟨p.2, hp⟩)
  simpa using Or.inl this

/-- Unfolding lemma: refreshing a loaded descriptor. -/
theorem refresh_descriptor_some (playlist_name : String) (d : Descriptor)
    (scan : List String) (now : String) :
    refresh_descriptor playlist_name (some d) scan now =
      { d with tracks := refresh_tracks d scan now, modified := some now } := rfl

/-! ### Catalog theorems -/

/-- C3 counterexample: a directory whose descriptor file holds invalid JSON is
absent from the `get_playlists` result — the collection is not listed, no
regenerated descriptor appears — and `_load_descriptor` leaves the corrupt
file exactly in place, so no `.backup` file is created by loading. -/
theorem corrupt_descriptor_not_listed :
    get_playlists [("good", DescriptorFile.valid sampleDescriptor),
        ("bad", DescriptorFile.invalidJSON)] = [("good", sampleDescriptor)]
  ∧ load_descriptor_file_state DescriptorFile.invalidJSON =
      (none, DescriptorFile.invalidJSON) :=
  ⟨rfl, rfl⟩

/-- Helper: a descriptor file loads iff it is valid. -/
theorem load_descriptor_file_eq_some (f : DescriptorFile) (d : Descriptor) :
    load_descriptor_file f = some d ↔ f = DescriptorFile.valid d := by
  cases f <;> simp [load_descriptor_file]

/-- C3 as amended: loading a corrupt descriptor never raises (the loader is a
total function returning `none`), performs no rename — the corrupt file stays
in place, no `.backup` appears —, and `get_playlists` lists exactly the
collections whose descriptor file is valid JSON, so the corrupt collection is
omitted rather than regenerated. -/
theorem corrupt_descriptor_skipped (cols : List (String × DescriptorFile))
    (name : String) :
    ((∃ d, (name, d) ∈ get_playlists cols) ↔
      ∃ d, (name, DescriptorFile.valid d) ∈ cols)
  ∧ (∀ f, load_descriptor_file_state f = (load_descriptor_file f, f))
  ∧ load_descriptor_file DescriptorFile.invalidJSON = none := by
  refine ⟨?_, fun f => rfl, rfl⟩
  constructor
  · rintro ⟨d, hd⟩
    rw [get_playlists, List.mem_filterMap] at hd
    obtain ⟨c, hc, hfc⟩ := hd
    rw [Option.map_eq_some'] at hfc
    obtain ⟨d', hd', heq⟩ := hfc
    obtain ⟨h1, h2⟩ := Prod.mk.injEq .. ▸ heq
    refine ⟨d, ?_⟩
    have : c = (name, DescriptorFile.valid d) := by
      rw [Prod.ext_iff]
      exact ⟨h1, (load_descriptor_file_eq_some _ _).mp (h2 ▸ hd')⟩
    exact this ▸ hc
  · rintro ⟨d, hd⟩
    refine ⟨d, ?_⟩
    rw [get_playlists, List.mem_filterMap]
    exact ⟨(name, DescriptorFile.valid d), hd, rfl⟩

/-- C1 counterexample: two consecutive refreshes of an unchanged directory do
not leave the persisted descriptor byte-identical — the second call rewrites
the `modified` timestamp, a further mutation of the descriptor contents. -/
theorem refresh_twice_changes_descriptor :
    (refresh_playlist "p" (refresh_playlist "p" sampleFS "t1").2 "t2").2.dfile ≠
      (refresh_playlist "p" sampleFS "t1").2.dfile := by decide

/-- C1 as amended: a second refresh with no filesystem change leaves every
field of the persisted descriptor unchanged — in particular the whole tracks
mapping — except `modified`, which is restamped with the new timestamp; the
file is therefore byte-identical only when the two timestamps coincide. -/
theorem refresh_idempotent_up_to_modified (playlist_name : String)
    (fs : PlaylistFS) (t1 t2 : String) (h : fs.dirExists = true) :
    (refresh_playlist playlist_name (refresh_playlist playlist_name fs t1).2
        t2).2.dfile =
      DescriptorFile.valid
        { refresh_descriptor playlist_name (load_descriptor fs) fs.scan t1 with
          modified := some t2 } := by
  set d1 := refresh_descriptor playlist_name (load_descriptor fs) fs.scan t1
    with hd1
  have hfs1 : (refresh_playlist playlist_name fs t1).2 =
      { fs with dfile := DescriptorFile.valid d1 } := by
    simp [refresh_playlist, h, hd1]
  rw [hfs1]
  have hdir : ({ fs with dfile := DescriptorFile.valid d1 } :
      PlaylistFS).dirExists = true := h
  simp only [refresh_playlist, hdir, if_pos]
  have hload : load_descriptor { fs with dfile := DescriptorFile.valid d1 } =
      some d1 := rfl
  rw [hload, refresh_descriptor_some]
  have hkeys : ∀ k, k ∈ d1.tracks.map Prod.fst ↔ k ∈ fs.scan := by
    intro k
    rw [hd1]
    exact refresh_tracks_keys _ _ _ _
  have hfix : refresh_tracks d1 fs.scan t2 = d1.tracks :=
    refresh_tracks_fixed d1 fs.scan t2 (fun s hs => (hkeys s).mpr hs)
      (fun k hk => (hkeys k).mp hk)
  rw [hfix, if_pos h]

/-- C1 witness: the two-entry sample directory, refreshed twice. -/
theorem refresh_idempotent_up_to_modified_witness :
    sampleFS.dirExists = true ∧
    (refresh_playlist "p" (refresh_playlist "p" sampleFS "t1").2 "t2").2.dfile =
      DescriptorFile.valid
        { refresh_descriptor "p" (load_descriptor sampleFS) sampleFS.scan "t1" with
          modified := some "t2" } :=
  ⟨rfl, refresh_idempotent_up_to_modified "p" sampleFS "t1" "t2" rfl⟩

/-- C2 counterexample: refreshing the sample directory (orders 2 and 3) after
`d.mp3` appeared assigns the new entry `order = len(tracks) + 1 = 3`, an order
already carried by the untouched entry `c.mp3` — so the order assigned to a
new entry is not an available (unused) one. -/
theorem refresh_new_order_collides :
    (refresh_descriptor "p" (some sampleDescriptor) ["b.mp3", "c.mp3", "d.mp3"]
        "t1").tracks.map (fun p => p.2.order) = [some 2, some 3, some 3]
  ∧ lookupKey (refresh_descriptor "p" (some sampleDescriptor)
        ["b.mp3", "c.mp3", "d.mp3"] "t1").tracks "c.mp3" =
      some (sampleTrack "c" 3)
  ∧ lookupKey (refresh_descriptor "p" (some sampleDescriptor)
        ["b.mp3", "c.mp3", "d.mp3"] "t1").tracks "d.mp3" =
      some { display_name := "d", order := some 3, added := "t1",
             modified := none } := by
  refine ⟨by decide, by decide, by decide⟩

/-- C2 as amended: a refresh keeps (unchanged, in order) exactly the
descriptor entries whose file is still in the scan, and appends one entry per
scanned file absent from the descriptor, in scan order; the `j`-th appended
entry (zero-based) receives `order = (size of the descriptor before the
refresh) + j + 1` — a counter that still includes the not-yet-removed stale
entries and may therefore duplicate an existing order value. -/
theorem refresh_reconciliation (playlist_name : String) (fs : PlaylistFS)
    (d : Descriptor) (now : String) (h1 : fs.dirExists = true)
    (h2 : fs.dfile = DescriptorFile.valid d) (h3 : fs.scan.Nodup) :
    (refresh_playlist playlist_name fs now).2.dfile =
      DescriptorFile.valid
        { d with
          tracks := d.tracks.filter (fun p => decide (p.1 ∈ fs.scan)) ++
            newEntriesFrom (d.tracks.map Prod.fst) now d.tracks.length fs.scan
          modified := some now } := by
  have hload : load_descriptor fs = some d := by
    rw [load_descriptor, h2]
    rfl
  simp only [refresh_playlist, h1, if_pos, hload, refresh_descriptor_some]
  have htr : refresh_tracks d fs.scan now =
      d.tracks.filter (fun p => decide (p.1 ∈ fs.scan)) ++
        newEntriesFrom (d.tracks.map Prod.fst) now d.tracks.length fs.scan := by
    unfold refresh_tracks
    rw [addNewTracks_eq_append (d.tracks.map Prod.fst) now fs.scan d.tracks h3
      (fun s _ hs => hs)]
    rw [List.filter_append]
    congr 1
    · apply List.filter_congr
      intro p hp
      have hpk : p.1 ∈ d.tracks.map Prod.fst := (mem_keys_iff _ _).mpr ⟨p.2, hp⟩
      by_cases hin : p.1 ∈ fs.scan
      · simp [hin]
      · simp [hin, hpk]
    · rw [List.filter_eq_self]
      intro e he
      have := newEntriesFrom_mem (d.tracks.map Prod.fst) now fs.scan
        d.tracks.length e he
      simpa using Or.inr this.2
  rw [htr]

/-- C2 witness: the grown sample directory (files `b.mp3`, `c.mp3`, `d.mp3`;
descriptor entries for `b.mp3` and `c.mp3`). -/
theorem refresh_reconciliation_witness :
    sampleFSGrown.dirExists = true
  ∧ sampleFSGrown.dfile = DescriptorFile.valid sampleDescriptor
  ∧ sampleFSGrown.scan.Nodup
  ∧ (refresh_playlist "p" sampleFSGrown "t1").2.dfile =
      DescriptorFile.valid
        { sampleDescriptor with
          tracks := sampleDescriptor.tracks.filter
              (fun p => decide (p.1 ∈ sampleFSGrown.scan)) ++
            newEntriesFrom (sampleDescriptor.tracks.map Prod.fst) "t1"
              sampleDescriptor.tracks.length sampleFSGrown.scan
          modified := some "t1" } :=
  ⟨rfl, rfl, by decide,
    refresh_reconciliation "p" sampleFSGrown sampleDescriptor "t1" rfl rfl
      (by decide)⟩

/-- C5: with a loaded descriptor, `get_playlist_tracks` returns the surviving
entries sorted ascending by `order`: the result is the sorted entry list's
paths, the sorted orders are ascending, sorting permutes the collected entries
(nothing added or lost beyond the exclusion), a path is returned iff it has a
descriptor entry and its file still exists, and no write-back happens — the
filesystem (hence the persisted descriptor) is returned unmodified. -/
theorem getTracks_sorted_excludes_missing (fs : PlaylistFS) (d : Descriptor)
    (h1 : fs.dirExists = true) (h2 : fs.dfile = DescriptorFile.valid d) :
    (get_playlist_tracks fs).1 =
      ((trackEntries d fs.fileExists).insertionSort entryLE).map Prod.snd
  ∧ List.Sorted (fun a b => a ≤ b)
      (((trackEntries d fs.fileExists).insertionSort entryLE).map Prod.fst)
  ∧ ((trackEntries d fs.fileExists).insertionSort entryLE).Perm
      (trackEntries d fs.fileExists)
  ∧ (∀ p, p ∈ (get_playlist_tracks fs).1 ↔
      ∃ ti, (p, ti) ∈ d.tracks ∧ fs.fileExists p = true)
  ∧ (get_playlist_tracks fs).2 = fs := by
  have hload : load_descriptor fs = some d := by
    rw [load_descriptor, h2]
    rfl
  have hget : get_playlist_tracks fs =
      (((trackEntries d fs.fileExists).insertionSort entryLE).map Prod.snd,
        fs) := by
    simp [get_playlist_tracks, h1, hload]
  refine ⟨by rw [hget], ?_, List.perm_insertionSort entryLE _, ?_, by rw [hget]⟩
  · show (((trackEntries d fs.fileExists).insertionSort entryLE).map
      Prod.fst).Pairwise (fun a b => a ≤ b)
    rw [List.pairwise_map]
    exact List.sorted_insertionSort entryLE (trackEntries d fs.fileExists)
  · intro p
    rw [hget]
    simp only [List.mem_map]
    constructor
    · rintro ⟨e, heS, rfl⟩
      have heE : e ∈ trackEntries d fs.fileExists :=
        (List.perm_insertionSort entryLE _).mem_iff.mp heS
      rw [trackEntries, List.mem_filterMap] at heE
      obtain ⟨a, ha, hg⟩ := heE
      by_cases hf : fs.fileExists a.1 = true
      · rw [if_pos hf] at hg
        cases Option.some.inj hg
        exact ⟨a.2, ha, hf⟩
      · rw [if_neg hf] at hg
        exact absurd hg (by simp)
    · rintro ⟨ti, hti, hf⟩
      refine ⟨(ti.order.getD 999, p), ?_, rfl⟩
      rw [(List.perm_insertionSort entryLE _).mem_iff, trackEntries,
        List.mem_filterMap]
      exact ⟨(p, ti), hti, by rw [if_pos hf]⟩

/-- C5 witness: the `Rock` directory with both files present. -/
theorem getTracks_sorted_excludes_missing_witness :
    rockFS.dirExists = true ∧ rockFS.dfile = DescriptorFile.valid rockDescriptor
  ∧ ((get_playlist_tracks rockFS).1 =
      ((trackEntries rockDescriptor rockFS.fileExists).insertionSort
        entryLE).map Prod.snd
    ∧ List.Sorted (fun a b => a ≤ b)
        (((trackEntries rockDescriptor rockFS.fileExists).insertionSort
          entryLE).map Prod.fst)
    ∧ ((trackEntries rockDescriptor rockFS.fileExists).insertionSort
        entryLE).Perm (trackEntries rockDescriptor rockFS.fileExists)
    ∧ (∀ p, p ∈ (get_playlist_tracks rockFS).1 ↔
        ∃ ti, (p, ti) ∈ rockDescriptor.tracks ∧ rockFS.fileExists p = true)
    ∧ (get_playlist_tracks rockFS).2 = rockFS) :=
  ⟨rfl, rfl, getTracks_sorted_excludes_missing rockFS rockDescriptor rfl rfl⟩

/-- Helper: the m3u body is the in-order concatenation of one
`#EXTINF`/absolute-path pair per track. -/
theorem m3uBody_eq (od : Option Descriptor) (ab : String → String) :
    ∀ l : List String, m3uBody od ab l =
      (l.map (fun t => "#EXTINF:-1," ++ get_track_display_name od t ++ "\n" ++
        ab t ++ "\n")).foldr (· ++ ·) "" := by
  intro l
  induction l with
  | nil => rfl
  | cons t rest ih => simp [m3uBody, ih]

/-- C9: `export_playlist` fails (returns no path) for a format other than
`m3u`/`pls` and for an empty track listing; for `m3u` on a nonempty listing it
returns the written path and text `#EXTM3U` newline, then, per track in
catalog order, an `#EXTINF:-1,` display-name line and an absolute-path line. -/
theorem export_m3u_spec (playlist_name : String) (fs : PlaylistFS)
    (format : String) :
    (format ≠ "m3u" ∧ format ≠ "pls" →
      export_playlist playlist_name fs format = none)
  ∧ ((get_playlist_tracks fs).1 = [] →
      export_playlist playlist_name fs format = none)
  ∧ (format = "m3u" → (get_playlist_tracks fs).1 ≠ [] →
      export_playlist playlist_name fs format = some
        ("playlists/" ++ playlist_name ++ "/" ++ playlist_name ++ "." ++ "m3u",
          "#EXTM3U\n" ++ ((get_playlist_tracks fs).1.map (fun t =>
            "#EXTINF:-1," ++ get_track_display_name (load_descriptor fs) t ++
              "\n" ++ fs.absPath t ++ "\n")).foldr (· ++ ·) "")) := by
  refine ⟨fun h => by simp [export_playlist, h], fun h => ?_, fun hf hne => ?_⟩
  · by_cases hfmt : format ≠ "m3u" ∧ format ≠ "pls"
    · simp [export_playlist, hfmt]
    · simp [export_playlist, hfmt, h]
  · subst hf
    simp [export_playlist, hne, m3uBody_eq]

/-- C9 witness: exporting `Rock` as m3u. -/
theorem export_m3u_spec_witness :
    ("m3u" : String) = "m3u" ∧ (get_playlist_tracks rockFS).1 ≠ []
  ∧ export_playlist "Rock" rockFS "m3u" = some
      ("playlists/" ++ "Rock" ++ "/" ++ "Rock" ++ "." ++ "m3u",
        "#EXTM3U\n" ++ ((get_playlist_tracks rockFS).1.map (fun t =>
          "#EXTINF:-1," ++ get_track_display_name (load_descriptor rockFS) t ++
            "\n" ++ rockFS.absPath t ++ "\n")).foldr (· ++ ·) "") :=
  ⟨rfl, by decide, (export_m3u_spec "Rock" rockFS "m3u").2.2 rfl (by decide)⟩

/-! ### Reorder helper lemmas -/

/-- With duplicate-free keys, `lookupKey` finds exactly the entries. -/
theorem lookupKey_eq_some_iff (l : List (String × TrackInfo)) :
    ∀ (k : String) (v : TrackInfo), (l.map Prod.fst).Nodup →
    (lookupKey l k = some v ↔ (k, v) ∈ l) := by
  induction l with
  | nil => intro k v _; simp [lookupKey]
  | cons p rest ih =>
    rintro k v hnd
    obtain ⟨pk, pv⟩ := p
    simp only [List.map_cons, List.nodup_cons] at hnd
    simp only [lookupKey]
    by_cases hp : pk = k
    · subst hp
      rw [if_pos rfl]
      constructor
      · intro h
        cases Option.some.inj h
        exact List.mem_cons_self _ _
      · intro h
        rcases List.mem_cons.mp h with heq | hmem
        · injection heq with h1 h2
          rw [h2]
        · exact absurd ((mem_keys_iff rest pk).mpr ⟨v, hmem⟩) hnd.1
    · rw [if_neg hp, ih k v hnd.2]
      constructor
      · exact List.mem_cons_of_mem _
      · intro h
        rcases List.mem_cons.mp h with heq | hmem
        · injection heq with h1 h2
          exact absurd h1.symm hp
        · exact hmem

/-- `setOrder` does not change the key sequence. -/
theorem setOrder_keys (t : List (String × TrackInfo)) (rp : String) (i : Nat) :
    (setOrder t rp i).map Prod.fst = t.map Prod.fst := by
  unfold setOrder
  rw [List.map_map]
  apply List.map_congr_left
  intro p _
  by_cases hp : p.1 = rp <;> simp [Function.comp, hp]

/-- Lookup after one order assignment. -/
theorem lookupKey_setOrder (rp k : String) (i : Nat) :
    ∀ t : List (String × TrackInfo),
    lookupKey (setOrder t rp i) k =
      if k = rp then
        (lookupKey t k).map (fun ti => { ti with order := some i })
      else lookupKey t k := by
  have hlk : ∀ (q : String × TrackInfo) (l : List (String × TrackInfo)),
      lookupKey (q :: l) k = if q.1 = k then some q.2 else lookupKey l k :=
    fun _ _ => rfl
  intro t
  induction t with
  | nil => by_cases hk : k = rp <;> simp [setOrder, lookupKey, hk]
  | cons p rest ih =>
    obtain ⟨pk, pv⟩ := p
    have hcons : setOrder ((pk, pv) :: rest) rp i =
        (if pk = rp then (pk, { pv with order := some i }) else (pk, pv)) ::
          setOrder rest rp i := rfl
    rw [hcons]
    by_cases hpk : pk = rp
    · rw [if_pos hpk]
      by_cases hpkk : pk = k
      · have hk : k = rp := by rw [← hpkk, hpk]
        rw [hlk, if_pos hpkk, if_pos hk, hlk, if_pos hpkk]
        rfl
      · rw [hlk, if_neg hpkk, ih]
        by_cases hk : k = rp
        · rw [if_pos hk, if_pos hk, hlk, if_neg hpkk]
        · rw [if_neg hk, if_neg hk, hlk, if_neg hpkk]
    · rw [if_neg hpk]
      by_cases hpkk : pk = k
      · have hk : ¬k = rp := fun h => hpk (by rw [hpkk, h])
        rw [hlk, if_pos hpkk, if_neg hk, hlk, if_pos hpkk]
      · rw [hlk, if_neg hpkk, ih]
        by_cases hk : k = rp
        · rw [if_pos hk, if_pos hk, hlk, if_neg hpkk]
        · rw [if_neg hk, if_neg hk, hlk, if_neg hpkk]

/-- `applyOrders` does not change the key sequence. -/
theorem applyOrders_keys : ∀ (l : List String) (i : Nat)
    (t : List (String × TrackInfo)),
    (applyOrders t i l).map Prod.fst = t.map Prod.fst := by
  intro l
  induction l with
  | nil => intro i t; rfl
  | cons rp rest ih =>
    intro i t
    simp only [applyOrders]
    rw [ih, setOrder_keys]

/-- Entries whose path is not listed keep their whole record. -/
theorem lookupKey_applyOrders_not_mem : ∀ (l : List String) (i : Nat)
    (t : List (String × TrackInfo)) (k : String), k ∉ l →
    lookupKey (applyOrders t i l) k = lookupKey t k := by
  intro l
  induction l with
  | nil => intro i t k _; rfl
  | cons rp rest ih =>
    intro i t k hk
    simp only [applyOrders]
    rw [ih _ _ _ fun h => hk (List.mem_cons_of_mem _ h), lookupKey_setOrder,
      if_neg fun h => hk (by rw [h]; exact List.mem_cons_self _ _)]

/-- Entries whose path is listed get `order` set from their list position. -/
theorem lookupKey_applyOrders_mem : ∀ l : List String, l.Nodup →
    ∀ (i : Nat) (t : List (String × TrackInfo)) (k : String), k ∈ l →
    lookupKey (applyOrders t i l) k =
      (lookupKey t k).map
        (fun ti => { ti with order := some (i + l.indexOf k) }) := by
  intro l
  induction l with
  | nil => intro _ i t k hk; simp at hk
  | cons rp rest ih =>
    intro hnd i t k hk
    have hnd' := List.nodup_cons.mp hnd
    simp only [applyOrders]
    by_cases hkr : k = rp
    · subst hkr
      rw [lookupKey_applyOrders_not_mem rest (i + 1) _ k hnd'.1,
        lookupKey_setOrder, if_pos rfl, List.indexOf_cons_self]
      simp
    · rcases List.mem_cons.mp hk with rfl | hk'
      · exact absurd rfl hkr
      · rw [ih hnd'.2 (i + 1) _ k hk', lookupKey_setOrder, if_neg hkr,
          List.indexOf_cons_ne _ fun h => hkr h.symm]
        have harith : i + 1 + List.indexOf k rest =
            i + (List.indexOf k rest).succ := by omega
        rw [harith]

/-- Entry-level membership in the collected `(order, path)` pairs. -/
theorem mem_trackEntries_iff (d : Descriptor) (fex : String → Bool)
    (e : Nat × String) :
    e ∈ trackEntries d fex ↔
      ∃ ti, (e.2, ti) ∈ d.tracks ∧ fex e.2 = true ∧
        e.1 = ti.order.getD 999 := by
  obtain ⟨e1, e2⟩ := e
  rw [trackEntries, List.mem_filterMap]
  constructor
  · rintro ⟨a, ha, hg⟩
    by_cases hf : fex a.1 = true
    · rw [if_pos hf] at hg
      cases Option.some.inj hg
      exact ⟨a.2, ha, hf, rfl⟩
    · rw [if_neg hf] at hg
      exact absurd hg (by simp)
  · rintro ⟨ti, hti, hf, ho⟩
    refine ⟨(e2, ti), hti, ?_⟩
    rw [if_pos hf]
    simp only at ho
    simp [ho]

/-- The paths of the collected entries form a subsequence of the keys. -/
theorem trackEntries_snd_sublist (d : Descriptor) (fex : String → Bool) :
    List.Sublist ((trackEntries d fex).map Prod.snd)
      (d.tracks.map Prod.fst) := by
  rw [trackEntries]
  induction d.tracks with
  | nil => simp
  | cons a l ih =>
    rw [List.filterMap_cons]
    by_cases hf : fex a.1 = true
    · rw [if_pos hf]
      simpa using ih.cons₂ a.1
    · rw [if_neg hf]
      simpa using ih.cons a.1

/-- A duplicate-free list is pairwise increasing in `indexOf`. -/
theorem indexOf_pairwise_of_nodup (l : List String) (h : l.Nodup) :
    l.Pairwise (fun a b => l.indexOf a < l.indexOf b) := by
  rw [List.pairwise_iff_getElem]
  intro i j hi hj hij
  rw [List.indexOf_getElem h i hi, List.indexOf_getElem h j hj]
  exact hij

/-- C4: with a valid descriptor whose keys are unique and a duplicate-free
path list, `reorder_tracks` writes the descriptor in which every listed path
that is a key gets `order = index + 1`, every unlisted path keeps its whole
entry (in particular its order value), and `get_playlist_tracks` afterwards
returns the listed paths — those actually present in the descriptor with their
file on disk — in exactly the list's order. -/
theorem reorder_then_getTracks (fs : PlaylistFS) (d : Descriptor)
    (ids : List String) (now : String)
    (h1 : fs.dirExists = true) (h2 : fs.dfile = DescriptorFile.valid d)
    (h3 : ids.Nodup) (h4 : (d.tracks.map Prod.fst).Nodup) :
    (reorder_tracks fs ids now).2.dfile =
      DescriptorFile.valid
        { d with tracks := applyOrders d.tracks 1 ids, modified := some now }
  ∧ (∀ p ∈ ids, lookupKey (applyOrders d.tracks 1 ids) p =
      (lookupKey d.tracks p).map
        (fun ti => { ti with order := some (ids.indexOf p + 1) }))
  ∧ (∀ k, k ∉ ids →
      lookupKey (applyOrders d.tracks 1 ids) k = lookupKey d.tracks k)
  ∧ ((get_playlist_tracks (reorder_tracks fs ids now).2).1.filter
        (fun p => decide (p ∈ ids)) =
      ids.filter (fun p => decide (p ∈ d.tracks.map Prod.fst) &&
        fs.fileExists p)) := by
  have hload : load_descriptor fs = some d := by
    rw [load_descriptor, h2]
    rfl
  set d' : Descriptor :=
    { d with tracks := applyOrders d.tracks 1 ids, modified := some now }
    with hd'
  have hre : reorder_tracks fs ids now =
      (true, { fs with dfile := DescriptorFile.valid d' }) := by
    simp [reorder_tracks, hload, hd']
  refine ⟨by rw [hre], ?_, ?_, ?_⟩
  · intro p hp
    rw [lookupKey_applyOrders_mem ids h3 1 d.tracks p hp, Nat.add_comm 1]
  · intro k hk
    exact lookupKey_applyOrders_not_mem ids 1 d.tracks k hk
  · rw [hre]
    have hload' : load_descriptor
        { fs with dfile := DescriptorFile.valid d' } = some d' := rfl
    have hget : (get_playlist_tracks
        { fs with dfile := DescriptorFile.valid d' }).1 =
        ((trackEntries d' fs.fileExists).insertionSort entryLE).map
          Prod.snd := by
      simp [get_playlist_tracks, h1, load_descriptor, load_descriptor_file]
    rw [hget]
    have hkeys' : d'.tracks.map Prod.fst = d.tracks.map Prod.fst := by
      rw [hd']
      exact applyOrders_keys ids 1 d.tracks
    have hnd' : (d'.tracks.map Prod.fst).Nodup := by
      rw [hkeys']
      exact h4
    set E : List (Nat × String) := trackEntries d' fs.fileExists with hE
    set S : List (Nat × String) := E.insertionSort entryLE with hS
    set q : Nat × String → Bool := fun e => decide (e.2 ∈ ids) with hq
    set T : List (Nat × String) :=
      (ids.filter (fun p => decide (p ∈ d.tracks.map Prod.fst) &&
        fs.fileExists p)).map (fun p => (ids.indexOf p + 1, p)) with hT
    have hstep1 : (S.map Prod.snd).filter (fun p => decide (p ∈ ids)) =
        (S.filter q).map Prod.snd := by
      rw [List.filter_map]
      rfl
    have hmemM0 : ∀ n k, ((n, k) ∈ E.filter q) ↔
        (k ∈ ids ∧ k ∈ d.tracks.map Prod.fst ∧ fs.fileExists k = true ∧
          n = ids.indexOf k + 1) := by
      intro n k
      rw [List.mem_filter]
      constructor
      · rintro ⟨hmem, hq'⟩
        have hkid : k ∈ ids := by simpa [hq] using hq'
        rw [hE, mem_trackEntries_iff] at hmem
        obtain ⟨ti', hti', hf, ho⟩ := hmem
        have hlk1 : lookupKey d'.tracks k = some ti' :=
          (lookupKey_eq_some_iff d'.tracks k ti' hnd').mpr hti'
        have hlk2 : lookupKey d'.tracks k =
            (lookupKey d.tracks k).map
              (fun ti => { ti with order := some (1 + ids.indexOf k) }) := by
          rw [hd']
          exact lookupKey_applyOrders_mem ids h3 1 d.tracks k hkid
        rw [hlk2] at hlk1
        cases hbase : lookupKey d.tracks k with
        | none =>
          rw [hbase] at hlk1
          exact absurd hlk1 (by simp)
        | some ti0 =>
          rw [hbase] at hlk1
          have hti'eq : ti' =
              { ti0 with order := some (1 + ids.indexOf k) } := by
            simpa using hlk1.symm
          refine ⟨hkid, ?_, hf, ?_⟩
          · exact (mem_keys_iff _ _).mpr
              ⟨ti0, (lookupKey_eq_some_iff d.tracks k ti0 h4).mp hbase⟩
          · simp only at ho
            rw [ho, hti'eq]
            simp [Nat.add_comm]
      · rintro ⟨hkid, hkd, hf, hn⟩
        obtain ⟨ti0, hti0⟩ := (mem_keys_iff _ _).mp hkd
        have hbase : lookupKey d.tracks k = some ti0 :=
          (lookupKey_eq_some_iff d.tracks k ti0 h4).mpr hti0
        have hlk2 : lookupKey d'.tracks k =
            some { ti0 with order := some (1 + ids.indexOf k) } := by
          rw [hd', lookupKey_applyOrders_mem ids h3 1 d.tracks k hkid, hbase]
          rfl
        have hti' : (k, { ti0 with order := some (1 + ids.indexOf k) }) ∈
            d'.tracks := (lookupKey_eq_some_iff d'.tracks k _ hnd').mp hlk2
        constructor
        · rw [hE, mem_trackEntries_iff]
          exact ⟨_, hti', hf, by simp [hn, Nat.add_comm]⟩
        · simpa [hq] using hkid
    have hmemT : ∀ n k, ((n, k) ∈ T) ↔
        (k ∈ ids ∧ k ∈ d.tracks.map Prod.fst ∧ fs.fileExists k = true ∧
          n = ids.indexOf k + 1) := by
      intro n k
      rw [hT, List.mem_map]
      constructor
      · rintro ⟨a, ha, heq⟩
        injection heq with hn hk
        subst hk
        obtain ⟨ha1, ha2⟩ := List.mem_filter.mp ha
        rw [Bool.and_eq_true, decide_eq_true_iff] at ha2
        exact ⟨ha1, ha2.1, ha2.2, hn.symm⟩
      · rintro ⟨hkid, hkd, hf, hn⟩
        refine ⟨k, List.mem_filter.mpr ⟨hkid, ?_⟩, by rw [hn]⟩
        rw [Bool.and_eq_true, decide_eq_true_iff]
        exact ⟨hkd, hf⟩
    have hndSnd : ((E.filter q).map Prod.snd).Nodup := by
      have hsub : List.Sublist ((E.filter q).map Prod.snd)
          (E.map Prod.snd) := (List.filter_sublist E).map Prod.snd
      have hnds : (E.map Prod.snd).Nodup := by
        rw [hE]
        exact List.Nodup.sublist (trackEntries_snd_sublist d' fs.fileExists)
          hnd'
      exact List.Nodup.sublist hsub hnds
    have hndM0 : (E.filter q).Nodup := List.Nodup.of_map Prod.snd hndSnd
    have hndT : T.Nodup := by
      rw [hT]
      refine List.Nodup.map_on ?_ (h3.filter _)
      intro x _ y _ hxy
      exact congrArg Prod.snd hxy
    have hperm0 : (E.filter q).Perm T := by
      rw [List.perm_ext_iff_of_nodup hndM0 hndT]
      rintro ⟨n, k⟩
      rw [hmemM0 n k, hmemT n k]
    have hpermM : (S.filter q).Perm (E.filter q) := by
      rw [hS]
      exact (List.perm_insertionSort entryLE E).filter q
    have hpermMT : (S.filter q).Perm T := hpermM.trans hperm0
    have hsortM : (S.filter q).Pairwise entryLE := by
      have : S.Pairwise entryLE := by
        rw [hS]
        exact List.sorted_insertionSort entryLE E
      exact this.filter q
    have hmemM : ∀ e ∈ S.filter q, e.1 = ids.indexOf e.2 + 1 ∧ e.2 ∈ ids := by
      intro e he
      have he0 : e ∈ E.filter q := hpermM.mem_iff.mp he
      obtain ⟨n, k⟩ := e
      obtain ⟨hkid, _, _, hn⟩ := (hmemM0 n k).mp he0
      exact ⟨hn, hkid⟩
    have hndSndM : ((S.filter q).map Prod.snd).Nodup :=
      (hpermM.map Prod.snd).nodup_iff.mpr hndSnd
    have hneM : (S.filter q).Pairwise (fun a b => a.2 ≠ b.2) :=
      List.pairwise_map.mp hndSndM
    have hltM : (S.filter q).Pairwise entryLT := by
      refine (hsortM.and hneM).imp_of_mem ?_
      intro a b ha hb hab
      obtain ⟨hle, hne⟩ := hab
      obtain ⟨ha1, ha2⟩ := hmemM a ha
      obtain ⟨hb1, hb2⟩ := hmemM b hb
      have hfstne : a.1 ≠ b.1 := by
        intro hfst
        apply hne
        have hidx : ids.indexOf a.2 = ids.indexOf b.2 := by omega
        exact (List.indexOf_inj ha2 hb2).mp hidx
      exact lt_of_le_of_ne hle hfstne
    have hltT : T.Pairwise entryLT := by
      rw [hT, List.pairwise_map]
      have hpw := indexOf_pairwise_of_nodup ids h3
      have hsub := List.filter_sublist
        (p := fun p => decide (p ∈ d.tracks.map Prod.fst) && fs.fileExists p)
        ids
      exact (List.Pairwise.sublist hsub hpw).imp
        fun h => Nat.add_lt_add_right h 1
    have hMT : S.filter q = T :=
      List.eq_of_perm_of_sorted hpermMT hltM hltT
    rw [hstep1, hMT, hT, List.map_map]
    have hid : (Prod.snd ∘ fun p : String => (ids.indexOf p + 1, p)) =
        fun p => p := rfl
    rw [hid, List.map_id']

/-- C4 witness: the spec's `Rock` scenario — reorder to `[b.mp3, a.mp3]`. -/
theorem reorder_then_getTracks_witness :
    rockFS.dirExists = true
  ∧ rockFS.dfile = DescriptorFile.valid rockDescriptor
  ∧ (["b.mp3", "a.mp3"] : List String).Nodup
  ∧ (rockDescriptor.tracks.map Prod.fst).Nodup
  ∧ ((reorder_tracks rockFS ["b.mp3", "a.mp3"] "t1").2.dfile =
      DescriptorFile.valid
        { rockDescriptor with
          tracks := applyOrders rockDescriptor.tracks 1 ["b.mp3", "a.mp3"]
          modified := some "t1" }
    ∧ (∀ p ∈ (["b.mp3", "a.mp3"] : List String),
        lookupKey (applyOrders rockDescriptor.tracks 1 ["b.mp3", "a.mp3"]) p =
          (lookupKey rockDescriptor.tracks p).map
            (fun ti => { ti with
              order := some ((["b.mp3", "a.mp3"] : List String).indexOf p + 1) }))
    ∧ (∀ k, k ∉ (["b.mp3", "a.mp3"] : List String) →
        lookupKey (applyOrders rockDescriptor.tracks 1 ["b.mp3", "a.mp3"]) k =
          lookupKey rockDescriptor.tracks k)
    ∧ ((get_playlist_tracks
          (reorder_tracks rockFS ["b.mp3", "a.mp3"] "t1").2).1.filter
            (fun p => decide (p ∈ (["b.mp3", "a.mp3"] : List String))) =
        (["b.mp3", "a.mp3"] : List String).filter
          (fun p => decide (p ∈ rockDescriptor.tracks.map Prod.fst) &&
            rockFS.fileExists p))) :=
  ⟨rfl, rfl, by decide, by decide,
    reorder_then_getTracks rockFS rockDescriptor ["b.mp3", "a.mp3"] "t1"
      rfl rfl (by decide) (by decide)⟩

end CustoMusic
